import Mathlib

/-!
Verification of the bill reconciliation pipeline in `api/sync-bills.js`
(LegiScan → Webflow bill tracker).

The pure field-derivation helpers of the handler are embedded shallowly:

* `computeStatusKey`   — the status classifier (source lines 56–70);
* `isPlaceholderName`  — placeholder-title detection (lines 72–75);
* `normalizeNumbers`   — HF/SF identifier normalizer (lines 77–84);
* `pickBestTextUrl`    — document link selector (lines 121–145);
* `buildTimelineHtml`  — timeline renderer (lines 155–196);
* `buildSponsorsHtml`  — sponsor renderer (lines 199–259);
* `createSlug`         — slug builder (lines 262–270).

JavaScript runtime primitives used by that code (string truthiness, `||`,
`??`, `trim`, `toUpperCase`/`toLowerCase` on the ASCII range, `Number(...)`
on decimal strings, `Date` parsing of ISO `YYYY-MM-DD` dates, stable
`Array.prototype.sort`, `Map`-based grouping, `Array.prototype.join`) are
modelled by the `js...` definitions below; each notes the fragment of the
runtime semantics it embeds.  Machine clock reads (`new Date()`) are threaded
through as an explicit `today` parameter.
-/

namespace BillSync

/-! ## JS string runtime fragment -/

/-- Truthiness of a JS string-or-undefined value (`undefined`, `null` and
`""` are falsy, every other string truthy). -/
def jsTruthy : Option String → Bool
  | some s => s ≠ ""
  | none => false

/-- JS `a || d` for a string-or-undefined `a` and a string default `d`. -/
def jsOrStr (a : Option String) (d : String) : String :=
  if jsTruthy a then a.getD "" else d

/-- JS `a || b || d` for string-or-undefined `a`, `b` and string default `d`. -/
def jsOrStr3 (a b : Option String) (d : String) : String :=
  if jsTruthy a then a.getD "" else jsOrStr b d

/-- JS `a || b` where both operands are string-or-undefined and the result
feeds another truthiness test (used for `t.date || t.action_date`). -/
def jsOrOpt (a b : Option String) : Option String :=
  if jsTruthy a then a else if jsTruthy b then b else none

/-- Whitespace test for the modelled fragment: ASCII space, tab, CR, LF
(JS `\s` additionally matches rarer Unicode space characters, which no
claim exercises). -/
def jsWs (c : Char) : Bool :=
  c.isWhitespace

/-- JS `String.prototype.trim` on the modelled whitespace fragment. -/
def jsTrim (s : String) : String :=
  ⟨((s.data.dropWhile jsWs).reverse.dropWhile jsWs).reverse⟩

/-- JS `String.prototype.toUpperCase` on the ASCII fragment. -/
def jsUpper (s : String) : String :=
  ⟨s.data.map Char.toUpper⟩

/-- JS `String.prototype.toLowerCase` on the ASCII fragment. -/
def jsLower (s : String) : String :=
  ⟨s.data.map Char.toLower⟩

def allDigits (l : List Char) : Bool :=
  l.all (fun c => c.isDigit)

def digitsToNat (l : List Char) : Nat :=
  l.foldl (fun acc c => 10 * acc + (c.toNat - 48)) 0

/-- Modelled from the JS runtime: `Number(string)` on the fragment of
optional-sign decimal integer strings.  A blank (or empty) string yields `0`;
a trimmed `[+-]?` digit string yields its value; everything else is `NaN`,
encoded as `none`.  (Fractional, hex and exponent forms are outside the
modelled fragment; no claim exercises them.) -/
def jsNumberOfString (s : String) : Option Int :=
  let t := jsTrim s
  if t = "" then some 0
  else
    match t.data with
    | [] => some 0
    | c :: rest =>
      if c = '-' then
        if rest ≠ [] ∧ allDigits rest then some (-(digitsToNat rest : Int)) else none
      else if c = '+' then
        if rest ≠ [] ∧ allDigits rest then some ((digitsToNat rest : Int)) else none
      else if allDigits (c :: rest) then some ((digitsToNat (c :: rest) : Int)) else none

/-- `Number(x)` for an optional string, as applied to the legislative-year
field: a missing value (`undefined`) is `NaN`. -/
def jsNumberOpt : Option String → Option Int
  | some s => jsNumberOfString s
  | none => none

/-- Substring occurrence test on character lists (the semantics of an
anchored-free literal regex alternative under `RegExp.prototype.test`). -/
def containsSub (pat : List Char) : List Char → Bool
  | [] => pat.isEmpty
  | c :: rest => pat.isPrefixOf (c :: rest) || containsSub pat rest

/-! ## Calendar dates -/

/-- A calendar date, used to model JS `Date` values that the source only ever
compares (`new Date()` against the June-1 cutoff) with day resolution.
`month` is human-numbered 1–12 (the source's `new Date(year, 5, 1)` uses
month index 5, i.e. June). -/
structure YMD where
  year : Int
  month : Nat
  day : Nat
deriving DecidableEq, Repr

/-- `a ≤ b` on calendar dates; models timestamp comparison (any time of day
on day `b` is on/after midnight of day `b`). -/
def YMD.leB (a b : YMD) : Bool :=
  (a.year < b.year) ||
    (a.year = b.year &&
      ((a.month < b.month) || (a.month = b.month && a.day ≤ b.day)))

/-! ## Data model: LegiScan bill payload fragment -/

/-- One entry of `bill.history` (date, action text); fields the source never
reads are omitted.  `Option` encodes possibly-absent JSON fields. -/
structure HistoryEvent where
  date : Option String
  action_date : Option String
  action : Option String
deriving DecidableEq, Repr

/-- One entry of `bill.texts` (a document version). -/
structure TextVersion where
  date : Option String
  action_date : Option String
  mime : Option String
  state_link : Option String
  url : Option String
deriving DecidableEq, Repr

/-- One entry of `bill.sponsors`.  `typ` embeds the JSON field `type`
(a Lean keyword). -/
structure Sponsor where
  name : Option String
  party : Option String
  district : Option String
  role : Option String
  chamber : Option String
  chamber_id : Option String
  typ : Option String
  role_id : Option Int
  sponsor_type_id : Option Int
deriving DecidableEq, Repr

/-- The fragment of a LegiScan `bill` payload read by the helpers. -/
structure BillInfo where
  status : Int
  last_action : Option String
  last_action_date : Option String
  status_date : Option String
  history : Option (List HistoryEvent)
  texts : Option (List TextVersion)
  sponsors : Option (List Sponsor)
  state_link : Option String
  url : Option String
  title : Option String
deriving DecidableEq, Repr

/-- A bill payload with every optional field absent, for building concrete
test inputs. -/
def emptyBill : BillInfo :=
  ⟨0, none, none, none, none, none, none, none, none, none⟩

/-! ## Status Classifier (`computeStatusKey`, source lines 56–70) -/

/-- The literal alternatives of the source regex
`/tabled|laid on the? table|postponed|indefinitely|sine die|died|withdrawn|stricken/`.
Its only metacharacter is the `?` on the final `e` of `the`, so the regex is
equivalent to substring search for these nine literals.  (Note: the `?`
applies to the letter `e` alone — `laid on table`, with no `th`, is NOT
matched.) -/
def deadPhrases : List String :=
  ["tabled", "laid on the table", "laid on th table", "postponed",
   "indefinitely", "sine die", "died", "withdrawn", "stricken"]

/-- `looksDead` test of the classifier: the lower-cased last action contains
one of the dead phrases. -/
def looksDead (la : String) : Bool :=
  deadPhrases.any (fun p => containsSub p.data la.data)

/-- The status classifier `computeStatusKey(billInfo, { state, legislativeYear })`.
`today` threads the source's ambient `new Date()` clock read.  Returns one of
the four literal labels the source returns. -/
def computeStatusKey (billInfo : BillInfo) (state : String)
    (legislativeYear : Option String) (today : YMD) : String :=
  let code := billInfo.status
  if code = 4 then "Passed"
  else if code = 5 ∨ code = 6 then "Failed"
  else
    let year := jsNumberOpt legislativeYear
    let cutoff : Option YMD :=
      match year with
      | some y => if state = "MN" ∧ y ≠ 0 then some ⟨y, 6, 1⟩ else none
      | none => none
    let la := jsLower (jsOrStr billInfo.last_action "")
    if looksDead la then "Tabled"
    else
      match cutoff with
      | some c =>
        if YMD.leB c today ∧ (code = 1 ∨ code = 2 ∨ code = 3) then "Tabled" else "Active"
      | none => "Active"

/-! ## Placeholder-name detection (`isPlaceholderName`, lines 72–75) and the
display-name decision of the handler (lines 359–363) -/

/-- Strict match of `/^[HS]F[-\s]?\d+$/i`. -/
def matchBareCode (n : String) : Bool :=
  match n.data with
  | c1 :: c2 :: rest =>
    (c1.toUpper = 'H' ∨ c1.toUpper = 'S') && c2.toUpper = 'F' &&
      ((rest ≠ [] && allDigits rest) ||
        (match rest with
         | c3 :: rest2 => (jsWs c3 || c3 = '-') && rest2 ≠ [] && allDigits rest2
         | [] => false))
  | _ => false

/-- `isPlaceholderName(name, billNum)` of the source.  The handler passes the
(already trimmed) CMS display name and the primary bill number. -/
def isPlaceholderName (name billNum : String) : Bool :=
  let n := jsTrim name
  n = "" ||
    (billNum ≠ "" && jsUpper n = jsUpper billNum) ||
    matchBareCode n ||
    (jsLower n = "untitled" ∨ jsLower n = "tbd" ∨ jsLower n = "placeholder")

/-- The handler's display-name decision (lines 359–363): the `name` entry of
the update payload, `none` when the field is left untouched.  When the
existing name is judged a placeholder the payload carries
`primaryInfo.title || primaryNumber`. -/
def nameFieldUpdate (currentName primaryNumber : String) (title : Option String) :
    Option String :=
  if isPlaceholderName currentName primaryNumber then
    some (jsOrStr title primaryNumber)
  else none

/-! ## Identifier Normalizer (`normalizeNumbers`, lines 77–84) -/

/-- Result of `normalizeNumbers`: the two normalized codes plus the
`corrections` object, whose only possible keys are `house-file-number`
(`corrHouse`) and `senate-file-number` (`corrSenate`); `none` means the key
is absent. -/
structure NormalizedNumbers where
  houseNumber : String
  senateNumber : String
  corrHouse : Option String
  corrSenate : Option String
deriving DecidableEq, Repr

/-- The `norm` closure: `(v || "").toUpperCase().replace(/[\s-]+/g, "")`. -/
def normIdent (v : String) : String :=
  ⟨(v.data.map Char.toUpper).filter (fun c => !(jsWs c || c = '-'))⟩

/-- Strict match of `/^HF\d+$/`. -/
def matchHF (s : String) : Bool :=
  match s.data with
  | c1 :: c2 :: rest => c1 = 'H' && c2 = 'F' && rest ≠ [] && allDigits rest
  | _ => false

/-- Strict match of `/^SF\d+$/`. -/
def matchSF (s : String) : Bool :=
  match s.data with
  | c1 :: c2 :: rest => c1 = 'S' && c2 = 'F' && rest ≠ [] && allDigits rest
  | _ => false

/-- `normalizeNumbers(rawHouse, rawSenate)`: normalize both codes, then apply
the two sequential swap rules.  The second rule tests the state as updated by
the first, exactly as the source's sequential `if` statements do; when a rule
fires it assigns both correction keys, overwriting any previous values. -/
def normalizeNumbers (rawHouse rawSenate : String) : NormalizedNumbers :=
  let h := normIdent rawHouse
  let s := normIdent rawSenate
  let r1 : NormalizedNumbers :=
    if h = "" && matchHF s then ⟨s, "", some s, some ""⟩ else ⟨h, s, none, none⟩
  if r1.senateNumber = "" && matchSF r1.houseNumber then
    ⟨"", r1.houseNumber, some "", some r1.houseNumber⟩
  else r1

/-! ## Slug Builder (`createSlug`, lines 262–270) -/

/-- Characters kept by `replace(/[^a-z0-9\s-]/g, '')` (after lower-casing). -/
def slugKeep (c : Char) : Bool :=
  (97 ≤ c.toNat && c.toNat ≤ 122) || c.isDigit || jsWs c || c = '-'

/-- Replace every maximal run of `p`-characters by the single character
`rep`; models `replace(/X+/g, rep)` for a character class `X`.  The `Bool`
argument tracks whether the previous character was in a run. -/
def collapseRunsAux (p : Char → Bool) (rep : Char) : Bool → List Char → List Char
  | _, [] => []
  | inRun, c :: rest =>
    if p c then
      if inRun then collapseRunsAux p rep true rest
      else rep :: collapseRunsAux p rep true rest
    else c :: collapseRunsAux p rep false rest

def collapseRuns (p : Char → Bool) (rep : Char) (l : List Char) : List Char :=
  collapseRunsAux p rep false l

/-- Drop a single leading occurrence of `c`. -/
def dropOneLeading (c : Char) : List Char → List Char
  | [] => []
  | x :: rest => if x = c then rest else x :: rest

/-- `replace(/^-|-$/g, '')`: remove one leading and one trailing hyphen. -/
def trimEdgeHyphens (l : List Char) : List Char :=
  (dropOneLeading ('-') ((dropOneLeading ('-') l).reverse)).reverse

/-- `createSlug(text)`: lower-case, strip characters outside `[a-z0-9\s-]`,
collapse whitespace runs to `-`, collapse `-` runs, trim edge hyphens,
truncate to 80 characters. -/
def createSlug (text : String) : String :=
  let step1 := text.data.map Char.toLower
  let step2 := step1.filter slugKeep
  let step3 := collapseRuns jsWs ('-') step2
  let step4 := collapseRuns (fun c => c = '-') ('-') step3
  let step5 := trimEdgeHyphens step4
  ⟨step5.take 80⟩

/-! ## Stable sorting (`Array.prototype.sort`)

`Array.prototype.sort` is a stable sort (ECMAScript 2019+); a comparator
call returning `NaN` is treated as `+0`, i.e. "equal" (ES `SortCompare`).
It is modelled as a stable insertion sort over the boolean relation
`le a b = (comparator a b ≤ 0)`.  For consistent comparators every stable
sort produces the same list, so the model agrees with the engine's TimSort
on every input whose comparator is consistent (claims about order are stated
for those inputs). -/

/-- Insert `x` (an element earlier in the original list than everything in
`l`) in front of the first element `y` of `l` with `le x y`. -/
def insertStable (le : α → α → Bool) (x : α) : List α → List α
  | [] => [x]
  | y :: ys => if le x y then x :: y :: ys else y :: insertStable le x ys

/-- Stable sort by the boolean relation `le`. -/
def jsSort (le : α → α → Bool) (l : List α) : List α :=
  l.foldr (insertStable le) []

/-! ## Date parsing and formatting -/

/-- Split a character list at every occurrence of `sep`. -/
def splitOnChar (sep : Char) (l : List Char) : List (List Char) :=
  l.foldr
    (fun c acc =>
      match acc with
      | [] => if c = sep then [[], []] else [[c]]
      | seg :: rest => if c = sep then [] :: (seg :: rest) else (c :: seg) :: rest)
    [[]]

/-- Modelled from the JS runtime: parse a strict `YYYY-MM-DD` digit string as
a calendar date (`new Date(string)` on the ISO date fragment).  Any other
format is outside the modelled fragment and yields `none` (an invalid date /
`NaN` timestamp). -/
def parseYMD (s : String) : Option (Int × Nat × Nat) :=
  match splitOnChar ('-') s.data with
  | [ys, ms, ds] =>
    if ys ≠ [] && allDigits ys && ms ≠ [] && allDigits ms && ds ≠ [] && allDigits ds then
      let m := digitsToNat ms
      let d := digitsToNat ds
      if 1 ≤ m && m ≤ 12 && 1 ≤ d && d ≤ 31 then
        some ((digitsToNat ys : Int), m, d)
      else none
    else none
  | _ => none

/-- The timestamp of a parsed date, encoded order-isomorphically to the JS
epoch-milliseconds value (`none` = `NaN`). -/
def jsDateNum (s : String) : Option Int :=
  match parseYMD s with
  | some (y, m, d) => some (y * 10000 + (m : Int) * 100 + (d : Int))
  | none => none

/-- Comparator-derived order for the descending date sorts of the source:
`le a b` iff `new Date(keyB) - new Date(keyA) ≤ 0` with a `NaN` comparator
value treated as `0` (equal). -/
def descKeyLe (ka kb : Option Int) : Bool :=
  match ka, kb with
  | some x, some y => decide (y ≤ x)
  | _, _ => true

/-- HTML escaping `esc` (line 147): replace `& < > " '`. -/
def escChar (c : Char) : String :=
  if c = '&' then "&amp;"
  else if c = '<' then "&lt;"
  else if c = '>' then "&gt;"
  else if c = Char.ofNat 34 then "&quot;"
  else if c = Char.ofNat 39 then "&#39;"
  else String.singleton c

def esc (s : String) : String :=
  String.join (s.data.map escChar)

def monthAbbrev (m : Nat) : String :=
  (["Jan", "Feb", "Mar", "Apr", "May", "Jun",
    "Jul", "Aug", "Sep", "Oct", "Nov", "Dec"]).getD (m - 1) ""

/-- Date formatter `fmt` (lines 148–153): empty input yields `""`; a string
whose part before any `T` parses as `Y-M-D` renders as
`toLocaleDateString('en-US', {month:'short', day:'numeric', year:'numeric'})`
(e.g. `Jun 1, 2024`); anything else renders as the escaped input (the
source's invalid-`Date` branch).  Non-ISO strings that the JS `Date`
constructor happens to accept are outside the modelled fragment. -/
def fmt (d : String) : String :=
  if d = "" then ""
  else
    let pre : List Char := ((splitOnChar ('T') d.data).headD [])
    match parseYMD ⟨pre⟩ with
    | some (y, m, dd) => monthAbbrev m ++ " " ++ toString dd ++ ", " ++ toString y
    | none => esc d

/-! ## Timeline Renderer (`buildTimelineHtml`, lines 155–196) -/

/-- Sort key of a history event: `new Date(e.date || e.action_date || 0)`
(both fields falsy ⇒ the epoch, timestamp `0`). -/
def histSortKey (e : HistoryEvent) : Option Int :=
  match jsOrOpt e.date e.action_date with
  | some s => jsDateNum s
  | none => some 0

def histLe (a b : HistoryEvent) : Bool :=
  descKeyLe (histSortKey a) (histSortKey b)

/-- Grouping key of a history event: `item.date || item.action_date || ''`. -/
def dateKeyOf (e : HistoryEvent) : String :=
  jsOrStr3 e.date e.action_date ""

/-- Action text of a history event: `item.action || ''`. -/
def actionOf (e : HistoryEvent) : String :=
  jsOrStr e.action ""

/-- `Map.prototype.set`-style insertion: append the action to the entry of
`k` (entries keep key-insertion order), or add a new `(k, [a])` entry at the
end. -/
def groupInsert (k : String) (a : String) : List (String × List String) → List (String × List String)
  | [] => [(k, [a])]
  | (k0, as) :: rest =>
    if k0 = k then (k0, as ++ [a]) :: rest else (k0, as) :: groupInsert k a rest

/-- The `groupedByDate` map of the source, built by a fold over the sorted
history. -/
def groupByDate (l : List HistoryEvent) : List (String × List String) :=
  l.foldl (fun m e => groupInsert (dateKeyOf e) (actionOf e) m) []

/-- First-match lookup in the grouped entries. -/
def groupLookup (k : String) : List (String × List String) → Option (List String)
  | [] => none
  | (k0, as) :: rest => if k0 = k then some as else groupLookup k rest

/-- Rendering of one grouped entry (`rows` mapper, lines 179–193): `n` is the
number of groups, `i` the entry's index.  A single action keeps the original
format; multiple actions become `• `-bulleted lines. -/
def renderGroup (n i : Nat) (g : String × List String) : String :=
  let dateText := fmt g.fst
  let html :=
    match g.snd with
    | [a] =>
      if dateText ≠ "" then
        "<p><strong>" ++ esc dateText ++ "</strong><br>" ++ esc a ++ "</p>"
      else "<p>" ++ esc a ++ "</p>"
    | acts =>
      let actionItems := String.intercalate "<br>" (acts.map (fun a => "• " ++ esc a))
      if dateText ≠ "" then
        "<p><strong>" ++ esc dateText ++ "</strong><br>" ++ actionItems ++ "</p>"
      else "<p>" ++ actionItems ++ "</p>"
  if i < n - 1 then html ++ "<br>" else html

/-- `buildTimelineHtml(info)`.  The argument is `Option`al because the source
guards every field access with `info?.`. -/
def buildTimelineHtml (info : Option BillInfo) : String :=
  let hist : List HistoryEvent :=
    match info with
    | some i => i.history.getD []
    | none => []
  if hist = [] then
    let d := jsOrStr3 (info.bind BillInfo.last_action_date) (info.bind BillInfo.status_date) ""
    let a := jsOrStr (info.bind BillInfo.last_action) "No recent actions recorded"
    if d = "" ∧ a = "" then ""
    else
      let dateText := fmt d
      if dateText ≠ "" then
        "<p><strong>" ++ esc dateText ++ "</strong><br>" ++ esc a ++ "</p>"
      else "<p>" ++ esc a ++ "</p>"
  else
    let sorted := jsSort histLe hist
    let groups := groupByDate sorted
    String.join ((groups.enum).map (fun p => renderGroup groups.length p.fst p.snd))

/-! ## Document Link Selector (`pickBestTextUrl`, lines 121–145) -/

/-- Sort key of a document version: `new Date(t.date || t.action_date || 0)`. -/
def textSortKey (t : TextVersion) : Option Int :=
  match jsOrOpt t.date t.action_date with
  | some s => jsDateNum s
  | none => some 0

def textLe (a b : TextVersion) : Bool :=
  descKeyLe (textSortKey a) (textSortKey b)

/-- `.pdf($|\?)` anchor test at the head of a lower-cased character list. -/
def pdfAnchor : List Char → Bool
  | '.' :: 'p' :: 'd' :: 'f' :: rest => rest = [] || rest.head? = some ('?')
  | _ => false

/-- `/\.pdf($|\?)/i.test(u)` on the lower-cased characters of `u`. -/
def hasPdfUrl (l : List Char) : Bool :=
  match l with
  | [] => false
  | _ :: rest => pdfAnchor l || hasPdfUrl rest

/-- The PDF test of the selector:
`/pdf/i.test(t?.mime || "") || /\.pdf($|\?)/i.test(t?.state_link || t?.url || "")`. -/
def isPdfText (t : TextVersion) : Bool :=
  containsSub (String.data "pdf") (jsLower (jsOrStr t.mime "")).data ||
    hasPdfUrl (jsLower (jsOrStr3 t.state_link t.url "")).data

/-- `v.state_link || v.url || null` for a document version. -/
def textLinkOf (t : TextVersion) : Option String :=
  if jsTruthy t.state_link then t.state_link
  else if jsTruthy t.url then t.url
  else none

/-- `info.state_link || info.url || null`. -/
def infoLinkOf (i : BillInfo) : Option String :=
  if jsTruthy i.state_link then i.state_link
  else if jsTruthy i.url then i.url
  else none

/-- `pickBestTextUrl(info)`: sort versions by date descending, prefer the
first PDF-looking one, else the most recent, else the bill's own links, else
no link. -/
def pickBestTextUrl (info : Option BillInfo) : Option String :=
  match info with
  | none => none
  | some i =>
    let texts := i.texts.getD []
    if texts ≠ [] then
      let sorted := jsSort textLe texts
      match sorted.find? isPdfText with
      | some pdf => textLinkOf pdf
      | none =>
        match sorted.head? with
        | some first => textLinkOf first
        | none => infoLinkOf i
    else infoLinkOf i

/-! ## Sponsor Renderer (`buildSponsorsHtml`, lines 199–259) -/

/-- `sponsorTypeRank`: Primary (1) ↦ 0, Joint (3) ↦ 1, everything else
(Co-Sponsors 2, Generic 0, missing) ↦ 999 (excluded). -/
def sponsorTypeRank (typeId : Option Int) : Nat :=
  if typeId = some 1 then 0 else if typeId = some 3 then 1 else 999

/-- District pattern `/^\d{1,3}[A-B]$/i` (lower chamber). -/
def matchDistRep (s : String) : Bool :=
  let l := s.data
  let ds := l.dropLast
  ds ≠ [] && ds.length ≤ 3 && allDigits ds &&
    (match l.getLast? with
     | some c => c.toUpper = 'A' || c.toUpper = 'B'
     | none => false)

/-- District pattern `/^\d{1,3}$/` (upper chamber). -/
def matchDistSen (s : String) : Bool :=
  s.data ≠ [] && s.data.length ≤ 3 && allDigits s.data

/-- `prefixFor(s)`: the `Rep.`/`Sen.` display title, resolved from role id,
role text, chamber hints, then (for MN) the district pattern. -/
def chamberTitleOf (state : String) (s : Sponsor) : String :=
  let roleId := s.role_id.getD 0
  if roleId = 1 then "Rep."
  else if roleId = 2 then "Sen."
  else
    let roleText := jsLower (jsOrStr s.role "")
    if roleText = "sen" ∨ roleText = "senator" then "Sen."
    else if roleText = "rep" ∨ roleText = "representative" then "Rep."
    else
      let ch := jsLower ((s.chamber <|> s.chamber_id <|> s.typ).getD "")
      if ch = "s" ∨ ch = "senate" ∨ ch = "upper" then "Sen."
      else if ch = "h" ∨ ch = "house" ∨ ch = "lower" then "Rep."
      else
        let dist := s.district.getD ""
        if state = "MN" then
          if matchDistRep dist then "Rep."
          else if matchDistSen dist then "Sen."
          else ""
        else ""

/-- String rendering of an optional number inside `Array.prototype.join`
(`undefined` joins as the empty string). -/
def joinedInt : Option Int → String
  | some n => toString n
  | none => ""

/-- String rendering of an optional string inside `Array.prototype.join`. -/
def joinedStr : Option String → String
  | some s => s
  | none => ""

/-- The dedup key `[s?.name, s?.sponsor_type_id, s?.party, s?.district].join("|")`. -/
def sponsorKey (s : Sponsor) : String :=
  joinedStr s.name ++ "|" ++ joinedInt s.sponsor_type_id ++ "|" ++
    joinedStr s.party ++ "|" ++ joinedStr s.district

/-- Code-point lexicographic `≤` on character lists;
models `String.prototype.localeCompare ≤ 0`.  (The en-US collation order
between *distinct* names may differ from code-point order; the claims only
depend on `localeCompare(x, x) = 0` and on the relation being a total
order.) -/
def lexLe : List Char → List Char → Bool
  | [], _ => true
  | _ :: _, [] => false
  | a :: as, b :: bs => if a < b then true else if b < a then false else lexLe as bs

/-- Sponsor comparator as an order relation:
`rank(a) - rank(b) || localeCompare(a.name, b.name) ≤ 0`. -/
def sponsorLe (a b : Sponsor) : Bool :=
  let ra := sponsorTypeRank a.sponsor_type_id
  let rb := sponsorTypeRank b.sponsor_type_id
  if ra ≠ rb then decide (ra < rb)
  else lexLe (jsOrStr a.name "").data (jsOrStr b.name "").data

/-- The `seen`-set dedup filter (lines 244–250): keep a sponsor iff its key
was not seen before. -/
def dedupByKey : List Sponsor → List String → List Sponsor
  | [], _ => []
  | s :: rest, seen =>
    let k := sponsorKey s
    if k ∈ seen then dedupByKey rest seen
    else s :: dedupByKey rest (k :: seen)

/-- One rendered sponsor line: `` `${pref} ${name}${party}`.trim() ``. -/
def sponsorLine (state : String) (s : Sponsor) : String :=
  let pref := chamberTitleOf state s
  let name := if jsTruthy s.name then esc (s.name.getD "") else ""
  let party := if jsTruthy s.party then " (" ++ esc (s.party.getD "") ++ ")" else ""
  jsTrim (pref ++ " " ++ name ++ party)

/-- The filtered, sorted, deduplicated sponsor list that gets rendered. -/
def sponsorItems (list : List Sponsor) : List Sponsor :=
  let filteredList := list.filter (fun s => sponsorTypeRank s.sponsor_type_id < 999)
  let sorted := jsSort sponsorLe filteredList
  dedupByKey sorted []

/-- `buildSponsorsHtml(info, { state })`. -/
def buildSponsorsHtml (info : Option BillInfo) (state : String) : String :=
  let list : List Sponsor :=
    match info with
    | some i => i.sponsors.getD []
    | none => []
  if list = [] then ""
  else
    let items := sponsorItems list
    String.join ((items.enum).map (fun p =>
      let line := sponsorLine state p.snd
      if p.fst < items.length - 1 then "<p>" ++ line ++ "</p><br>"
      else "<p>" ++ line ++ "</p>"))

/-- An allowed character of a finished slug: `[a-z0-9-]`. -/
def slugOk (c : Char) : Bool :=
  (97 ≤ c.toNat && c.toNat ≤ 122) || c.isDigit || c = '-'

/-! ## Claim-side reference definitions (for refinement comparisons) -/

/-- The placeholder predicate as the specification words it: empty, equal to
the bill number case-insensitively, matching the bare-code pattern, or one of
the literal placeholder words.  Written with lower-case comparison where the
source uses upper-case, to be compared with `isPlaceholderName`. -/
def placeholderSpecClaim (name billNum : String) : Bool :=
  let n := jsTrim name
  n = "" ||
    (billNum ≠ "" && jsLower n = jsLower billNum) ||
    matchBareCode n ||
    ((["untitled", "tbd", "placeholder"]).contains (jsLower n))

/-- The composite key *as a tuple* `(name, type, party, district)`, the
reading of the specification's dedup contract. -/
def sponsorTupleKey (s : Sponsor) : Option String × Option Int × Option String × Option String :=
  (s.name, s.sponsor_type_id, s.party, s.district)

/-- Dedup by the tuple key (first occurrence wins) — the specification's
reading, to be compared with the source's joined-string dedup. -/
def dedupByTupleKey :
    List Sponsor → List (Option String × Option Int × Option String × Option String) → List Sponsor
  | [], _ => []
  | s :: rest, seen =>
    let k := sponsorTupleKey s
    if k ∈ seen then dedupByTupleKey rest seen
    else s :: dedupByTupleKey rest (k :: seen)

/-! # Theorems -/

/-! ## ASCII case conversion -/

theorem charEq_of_toNat_eq {a b : Char} (h : a.toNat = b.toNat) : a = b := by
  apply Char.ext
  apply UInt32.eq_of_toBitVec_eq
  exact BitVec.eq_of_toNat_eq h

theorem toNat_ofNat_valid {n : Nat} (h : n.isValidChar) : (Char.ofNat n).toNat = n := by
  simp [Char.ofNat, h, Char.ofNatAux, Char.toNat, UInt32.toNat]

theorem toUpper_eval (c : Char) :
    Char.toUpper c = if 97 ≤ c.toNat ∧ c.toNat ≤ 122 then Char.ofNat (c.toNat - 32) else c := by
  rfl

theorem toLower_eval (c : Char) :
    Char.toLower c = if 65 ≤ c.toNat ∧ c.toNat ≤ 90 then Char.ofNat (c.toNat + 32) else c := by
  rfl

theorem toUpper_toNat (c : Char) :
    (Char.toUpper c).toNat = if 97 ≤ c.toNat ∧ c.toNat ≤ 122 then c.toNat - 32 else c.toNat := by
  rw [toUpper_eval]
  by_cases h : 97 ≤ c.toNat ∧ c.toNat ≤ 122
  · simp only [h, if_true]
    have hv : (c.toNat - 32).isValidChar := by
      left
      omega
    exact toNat_ofNat_valid hv
  · simp [h]

theorem toLower_toNat (c : Char) :
    (Char.toLower c).toNat = if 65 ≤ c.toNat ∧ c.toNat ≤ 90 then c.toNat + 32 else c.toNat := by
  rw [toLower_eval]
  by_cases h : 65 ≤ c.toNat ∧ c.toNat ≤ 90
  · simp only [h, if_true]
    have hv : (c.toNat + 32).isValidChar := by
      left
      omega
    exact toNat_ofNat_valid hv
  · simp [h]

theorem toUpper_idem (c : Char) : (Char.toUpper c).toUpper = c.toUpper := by
  apply charEq_of_toNat_eq
  have h1 := toUpper_toNat c
  have h2 := toUpper_toNat (Char.toUpper c)
  by_cases h : 97 ≤ c.toNat ∧ c.toNat ≤ 122
  · rw [if_pos h] at h1
    rw [h1] at h2 ⊢
    rw [if_neg (by omega)] at h2
    exact h2
  · rw [if_neg h] at h1
    rw [h1] at h2 ⊢
    rw [if_neg h] at h2
    exact h2

theorem toUpper_eq_iff_toLower_eq (c d : Char) :
    Char.toUpper c = Char.toUpper d ↔ Char.toLower c = Char.toLower d := by
  have hlc := toLower_toNat c
  have hld := toLower_toNat d
  have huc := toUpper_toNat c
  have hud := toUpper_toNat d
  constructor
  · intro h
    apply charEq_of_toNat_eq
    have h' : (Char.toUpper c).toNat = (Char.toUpper d).toNat := by rw [h]
    split_ifs at hlc hld huc hud <;> omega
  · intro h
    apply charEq_of_toNat_eq
    have h' : (Char.toLower c).toNat = (Char.toLower d).toNat := by rw [h]
    split_ifs at hlc hld huc hud <;> omega

theorem mapUpper_eq_iff_mapLower :
    ∀ l₁ l₂ : List Char,
      l₁.map Char.toUpper = l₂.map Char.toUpper ↔ l₁.map Char.toLower = l₂.map Char.toLower
  | [], [] => by simp
  | [], _ :: _ => by simp
  | _ :: _, [] => by simp
  | c :: t₁, d :: t₂ => by
    simp only [List.map_cons, List.cons.injEq]
    rw [toUpper_eq_iff_toLower_eq, mapUpper_eq_iff_mapLower t₁ t₂]

/-! ## Stable sort lemmas -/

theorem mem_insertStable (le : α → α → Bool) (x : α) (l : List α) (z : α) :
    z ∈ insertStable le x l ↔ z = x ∨ z ∈ l := by
  induction l with
  | nil => simp [insertStable]
  | cons y ys ih =>
    by_cases h : le x y
    · simp [insertStable, h]
    · simp only [insertStable, h, Bool.false_eq_true, if_false, List.mem_cons, ih]
      tauto

theorem insertStable_perm (le : α → α → Bool) (x : α) (l : List α) :
    (insertStable le x l).Perm (x :: l) := by
  induction l with
  | nil => simp [insertStable]
  | cons y ys ih =>
    by_cases h : le x y
    · simp [insertStable, h]
    · simp only [insertStable, h, if_neg, Bool.false_eq_true, if_false]
      exact (ih.cons y).trans (List.Perm.swap x y ys)

theorem jsSort_perm (le : α → α → Bool) (l : List α) : (jsSort le l).Perm l := by
  induction l with
  | nil => simp [jsSort]
  | cons x xs ih =>
    have : jsSort le (x :: xs) = insertStable le x (jsSort le xs) := rfl
    rw [this]
    exact (insertStable_perm le x (jsSort le xs)).trans (ih.cons x)

theorem mem_jsSort (le : α → α → Bool) (l : List α) (z : α) :
    z ∈ jsSort le l ↔ z ∈ l :=
  (jsSort_perm le l).mem_iff

theorem filter_insertStable_neg (le : α → α → Bool) (q : α → Bool) (x : α) (l : List α)
    (hx : q x = false) :
    (insertStable le x l).filter q = l.filter q := by
  induction l with
  | nil => simp [insertStable, hx]
  | cons y ys ih =>
    by_cases h : le x y
    · simp [insertStable, h, hx]
    · simp only [insertStable, h, Bool.false_eq_true, if_false]
      rw [List.filter_cons, List.filter_cons, ih]

theorem filter_insertStable_pos (le : α → α → Bool) (q : α → Bool) (x : α) (l : List α)
    (hx : q x = true) (hle : ∀ y ∈ l, q y = true → le x y = true) :
    (insertStable le x l).filter q = x :: l.filter q := by
  induction l with
  | nil => simp [insertStable, hx]
  | cons y ys ih =>
    by_cases h : le x y
    · simp [insertStable, h, hx]
    · have hqy : q y = false := by
        by_cases hy : q y = true
        · exact absurd (hle y (by simp) hy) (by simpa using h)
        · simpa using hy
      simp only [insertStable, h, Bool.false_eq_true, if_false]
      rw [List.filter_cons, List.filter_cons, hqy]
      simp only [Bool.false_eq_true, if_false]
      exact ih (fun z hz hqz => hle z (by simp [hz]) hqz)

theorem filter_jsSort (le : α → α → Bool) (q : α → Bool) (l : List α)
    (hq : ∀ a ∈ l, ∀ b ∈ l, q a = true → q b = true → le a b = true) :
    (jsSort le l).filter q = l.filter q := by
  induction l with
  | nil => rfl
  | cons x xs ih =>
    have hstep : jsSort le (x :: xs) = insertStable le x (jsSort le xs) := rfl
    rw [hstep, List.filter_cons]
    by_cases hx : q x = true
    · rw [filter_insertStable_pos le q x (jsSort le xs) hx]
      · rw [ih (fun a ha b hb => hq a (by simp [ha]) b (by simp [hb])), hx]
        simp
      · intro y hy hqy
        exact hq x (by simp) y (by simp [(mem_jsSort le xs y).mp hy]) hx hqy
    · have hx' : q x = false := by simpa using hx
      rw [filter_insertStable_neg le q x (jsSort le xs) hx', hx']
      simp only [Bool.false_eq_true, if_false]
      exact ih (fun a ha b hb => hq a (by simp [ha]) b (by simp [hb]))

theorem pairwise_insertStable (le : α → α → Bool) (x : α) (l : List α)
    (htot : ∀ y ∈ l, le x y = true ∨ le y x = true)
    (htrans : ∀ y ∈ l, ∀ z ∈ l, le x y = true → le y z = true → le x z = true)
    (hl : l.Pairwise (fun a b => le a b = true)) :
    (insertStable le x l).Pairwise (fun a b => le a b = true) := by
  induction l with
  | nil => simp [insertStable]
  | cons y ys ih =>
    rcases List.pairwise_cons.mp hl with ⟨hy, hys⟩
    by_cases h : le x y
    · simp only [insertStable, h, if_true]
      refine List.pairwise_cons.mpr ⟨?_, hl⟩
      intro z hz
      rcases List.mem_cons.mp hz with hz | hz
      · subst hz
        exact h
      · exact htrans y (by simp) z (by simp [hz]) h (hy z hz)
    · simp only [insertStable, h, Bool.false_eq_true, if_false]
      refine List.pairwise_cons.mpr ⟨?_, ?_⟩
      · intro z hz
        rcases (mem_insertStable le x ys z).mp hz with hz | hz
        · subst hz
          rcases htot y (by simp) with hy' | hy'
          · exact absurd hy' (by simpa using h)
          · exact hy'
        · exact hy z hz
      · exact ih (fun z hz => htot z (by simp [hz]))
          (fun z hz w hw => htrans z (by simp [hz]) w (by simp [hw])) hys

theorem pairwise_jsSort (le : α → α → Bool) (l : List α)
    (htot : ∀ a ∈ l, ∀ b ∈ l, le a b = true ∨ le b a = true)
    (htrans : ∀ a ∈ l, ∀ b ∈ l, ∀ c ∈ l, le a b = true → le b c = true → le a c = true) :
    (jsSort le l).Pairwise (fun a b => le a b = true) := by
  induction l with
  | nil => simp [jsSort]
  | cons x xs ih =>
    have hstep : jsSort le (x :: xs) = insertStable le x (jsSort le xs) := rfl
    rw [hstep]
    apply pairwise_insertStable
    · intro y hy
      exact htot x (by simp) y (by simp [(mem_jsSort le xs y).mp hy])
    · intro y hy z hz
      exact htrans x (by simp) y (by simp [(mem_jsSort le xs y).mp hy])
        z (by simp [(mem_jsSort le xs z).mp hz])
    · exact ih (fun a ha b hb => htot a (by simp [ha]) b (by simp [hb]))
        (fun a ha b hb c hc =>
          htrans a (by simp [ha]) b (by simp [hb]) c (by simp [hc]))

/-! ## Grouping lemmas -/

theorem lookup_groupInsert (k k' a : String) (m : List (String × List String)) :
    groupLookup k (groupInsert k' a m) =
      if k' = k then some (((groupLookup k m).getD []) ++ [a]) else groupLookup k m := by
  induction m with
  | nil =>
    by_cases h : k' = k <;> simp [groupInsert, groupLookup, h]
  | cons e rest ih =>
    obtain ⟨k0, as⟩ := e
    by_cases h0 : k0 = k'
    · subst h0
      by_cases h : k0 = k
      · subst h
        simp [groupInsert, groupLookup]
      · simp [groupInsert, groupLookup, h]
    · by_cases h : k0 = k
      · subst h
        have hk : ¬ k' = k0 := fun hh => h0 hh.symm
        simp [groupInsert, groupLookup, h0, hk]
      · simp [groupInsert, groupLookup, h0, h, ih]

theorem keys_groupInsert (k : String) (a : String) (m : List (String × List String)) :
    (groupInsert k a m).map Prod.fst =
      if k ∈ m.map Prod.fst then m.map Prod.fst else m.map Prod.fst ++ [k] := by
  induction m with
  | nil => simp [groupInsert]
  | cons e rest ih =>
    obtain ⟨k0, as⟩ := e
    by_cases h0 : k0 = k
    · subst h0
      simp [groupInsert]
    · have hne : ¬ k = k0 := fun hh => h0 hh.symm
      by_cases hm : k ∈ rest.map Prod.fst
      · simp [groupInsert, h0, ih, hm, hne]
      · simp [groupInsert, h0, ih, hm, hne]

theorem nodup_keys_groupInsert (k : String) (a : String) (m : List (String × List String))
    (h : (m.map Prod.fst).Nodup) : ((groupInsert k a m).map Prod.fst).Nodup := by
  rw [keys_groupInsert]
  by_cases hm : k ∈ m.map Prod.fst
  · simpa [hm] using h
  · simp only [hm, if_false]
    simp [List.nodup_append, h, hm]

theorem groupStepFold_lookup (l : List HistoryEvent) :
    ∀ (acc : List (String × List String)) (k : String),
      groupLookup k (l.foldl (fun m e => groupInsert (dateKeyOf e) (actionOf e) m) acc) =
        if (groupLookup k acc).isSome = true ∨ l.any (fun e => decide (dateKeyOf e = k)) = true then
          some ((groupLookup k acc).getD [] ++
            (l.filter (fun e => decide (dateKeyOf e = k))).map actionOf)
        else none := by
  induction l with
  | nil =>
    intro acc k
    by_cases h : (groupLookup k acc).isSome = true
    · obtain ⟨as, has⟩ := Option.isSome_iff_exists.mp h
      simp [h, has]
    · have : groupLookup k acc = none := by
        cases hh : groupLookup k acc
        · rfl
        · exact absurd (by simp [hh]) h
      simp [h, this]
  | cons e rest ih =>
    intro acc k
    have hstep :
        (e :: rest).foldl (fun m ev => groupInsert (dateKeyOf ev) (actionOf ev) m) acc =
          rest.foldl (fun m ev => groupInsert (dateKeyOf ev) (actionOf ev) m)
            (groupInsert (dateKeyOf e) (actionOf e) acc) := rfl
    rw [hstep, ih]
    by_cases hk : dateKeyOf e = k
    · have hlook := lookup_groupInsert k (dateKeyOf e) (actionOf e) acc
      rw [if_pos hk] at hlook
      rw [hlook]
      simp [hk, List.filter_cons]
    · have hlook := lookup_groupInsert k (dateKeyOf e) (actionOf e) acc
      rw [if_neg hk] at hlook
      rw [hlook]
      simp [hk, List.filter_cons]

theorem groupLookup_groupByDate (l : List HistoryEvent) (k : String) :
    groupLookup k (groupByDate l) =
      if l.any (fun e => decide (dateKeyOf e = k)) = true then
        some ((l.filter (fun e => decide (dateKeyOf e = k))).map actionOf)
      else none := by
  have h := groupStepFold_lookup l [] k
  simpa [groupByDate, groupLookup] using h

theorem nodup_keys_groupFold (l : List HistoryEvent) :
    ∀ acc : List (String × List String), (acc.map Prod.fst).Nodup →
      ((l.foldl (fun m e => groupInsert (dateKeyOf e) (actionOf e) m) acc).map Prod.fst).Nodup := by
  induction l with
  | nil =>
    intro acc h
    exact h
  | cons e rest ih =>
    intro acc h
    exact ih _ (nodup_keys_groupInsert _ _ _ h)

theorem nodup_keys_groupByDate (l : List HistoryEvent) :
    ((groupByDate l).map Prod.fst).Nodup :=
  nodup_keys_groupFold l [] (by simp)

theorem mem_keys_groupFold (l : List HistoryEvent) :
    ∀ (acc : List (String × List String)) (k : String),
      (k ∈ (l.foldl (fun m e => groupInsert (dateKeyOf e) (actionOf e) m) acc).map Prod.fst ↔
        k ∈ acc.map Prod.fst ∨ k ∈ l.map dateKeyOf) := by
  induction l with
  | nil =>
    intro acc k
    simp
  | cons e rest ih =>
    intro acc k
    have hstep :
        (e :: rest).foldl (fun m ev => groupInsert (dateKeyOf ev) (actionOf ev) m) acc =
          rest.foldl (fun m ev => groupInsert (dateKeyOf ev) (actionOf ev) m)
            (groupInsert (dateKeyOf e) (actionOf e) acc) := rfl
    rw [hstep, ih]
    rw [keys_groupInsert]
    by_cases hm : dateKeyOf e ∈ acc.map Prod.fst
    · simp only [hm, if_true, List.map_cons, List.mem_cons]
      constructor
      · rintro (h | h)
        · exact Or.inl h
        · exact Or.inr (Or.inr h)
      · rintro (h | h | h)
        · exact Or.inl h
        · subst h
          exact Or.inl hm
        · exact Or.inr h
    · simp only [hm, if_false, List.mem_append, List.map_cons, List.mem_cons,
        List.mem_singleton]
      tauto

theorem mem_keys_groupByDate (l : List HistoryEvent) (k : String) :
    k ∈ (groupByDate l).map Prod.fst ↔ k ∈ l.map dateKeyOf := by
  have h := mem_keys_groupFold l [] k
  simpa [groupByDate] using h

/-! ## Dedup lemmas -/

theorem filter_dedupByKey (l : List Sponsor) :
    ∀ (seen : List String) (k : String),
      (dedupByKey l seen).filter (fun s => decide (sponsorKey s = k)) =
        if k ∈ seen then [] else (l.filter (fun s => decide (sponsorKey s = k))).take 1 := by
  induction l with
  | nil =>
    intro seen k
    by_cases h : k ∈ seen <;> simp [dedupByKey, h]
  | cons s rest ih =>
    intro seen k
    by_cases hs : sponsorKey s ∈ seen
    · simp only [dedupByKey, hs, if_true]
      rw [ih]
      by_cases hk : k ∈ seen
      · simp [hk]
      · have hne : ¬ sponsorKey s = k := fun hh => hk (hh ▸ hs)
        simp [hk, List.filter_cons, hne]
    · simp only [dedupByKey, hs, if_false]
      by_cases hk : k ∈ seen
      · have hne : ¬ sponsorKey s = k := fun hh => hs (hh ▸ hk)
        rw [List.filter_cons]
        simp only [hne, decide_eq_true_eq, if_neg, Bool.false_eq_true, if_false]
        rw [ih]
        have : k ∈ sponsorKey s :: seen := List.mem_cons.mpr (Or.inr hk)
        simp [this, hk, List.filter_cons, hne]
      · by_cases hsk : sponsorKey s = k
        · rw [List.filter_cons, List.filter_cons]
          simp only [hsk, decide_True, if_true, decide_eq_true_eq]
          rw [ih]
          have : k ∈ sponsorKey s :: seen := by
            rw [hsk]
            exact List.mem_cons_self _ _
          simp [this, hk]
        · rw [List.filter_cons, List.filter_cons]
          simp only [hsk, decide_eq_true_eq, if_neg, Bool.false_eq_true, if_false]
          rw [ih]
          have hks : ¬ k ∈ sponsorKey s :: seen := by
            intro hh
            rcases List.mem_cons.mp hh with hh | hh
            · exact hsk hh.symm
            · exact hk hh
          simp [hks, hk]

theorem dedupByKey_sublist (l : List Sponsor) :
    ∀ seen : List String, (dedupByKey l seen).Sublist l := by
  induction l with
  | nil =>
    intro seen
    simp [dedupByKey]
  | cons s rest ih =>
    intro seen
    by_cases hs : sponsorKey s ∈ seen
    · simp only [dedupByKey, hs, if_true]
      exact (ih seen).cons s
    · simp only [dedupByKey, hs, if_false]
      exact (ih _).cons₂ s

theorem not_mem_key_dedupByKey (l : List Sponsor) :
    ∀ (seen : List String) (k : String), k ∈ seen →
      ¬ k ∈ (dedupByKey l seen).map sponsorKey := by
  induction l with
  | nil =>
    intro seen k hk
    simp [dedupByKey]
  | cons s rest ih =>
    intro seen k hk
    by_cases hs : sponsorKey s ∈ seen
    · simp only [dedupByKey, hs, if_true]
      exact ih seen k hk
    · simp only [dedupByKey, hs, if_false, List.map_cons, List.mem_cons]
      rintro (h | h)
      · exact hs (h ▸ hk)
      · exact ih _ k (List.mem_cons.mpr (Or.inr hk)) h

theorem nodup_keys_dedupByKey (l : List Sponsor) :
    ∀ seen : List String, ((dedupByKey l seen).map sponsorKey).Nodup := by
  induction l with
  | nil =>
    intro seen
    simp [dedupByKey]
  | cons s rest ih =>
    intro seen
    by_cases hs : sponsorKey s ∈ seen
    · simp only [dedupByKey, hs, if_true]
      exact ih seen
    · simp only [dedupByKey, hs, if_false, List.map_cons]
      refine List.nodup_cons.mpr ⟨?_, ih _⟩
      exact not_mem_key_dedupByKey rest _ _ (List.mem_cons_self _ _)

/-! ## Identifier normalization lemmas -/

theorem normIdent_data (s : String) :
    (normIdent s).data = (s.data.map Char.toUpper).filter (fun c => !(jsWs c || c = '-')) := rfl

theorem list_map_id_of (l : List Char) (f : Char → Char) (h : ∀ c ∈ l, f c = c) :
    l.map f = l := by
  induction l with
  | nil => rfl
  | cons c t ih => simp [h c (by simp), ih (fun x hx => h x (by simp [hx]))]

theorem normIdent_idem (s : String) : normIdent (normIdent s) = normIdent s := by
  apply String.ext
  rw [normIdent_data, normIdent_data]
  have hfix : ∀ c ∈ (s.data.map Char.toUpper).filter (fun c => !(jsWs c || c = '-')),
      Char.toUpper c = c := by
    intro c hc
    have hc' := List.mem_of_mem_filter hc
    rcases List.mem_map.mp hc' with ⟨a, _, rfl⟩
    exact toUpper_idem a
  rw [list_map_id_of _ _ hfix]
  apply List.filter_eq_self.mpr
  intro c hc
  exact (List.mem_filter.mp hc).2

/-! ## Slug lemmas -/

theorem mem_collapseRunsAux (p : Char → Bool) (rep : Char) :
    ∀ (b : Bool) (l : List Char) (c : Char), c ∈ collapseRunsAux p rep b l →
      c = rep ∨ (c ∈ l ∧ p c = false) := by
  intro b l
  induction l generalizing b with
  | nil =>
    intro c hc
    simp [collapseRunsAux] at hc
  | cons x rest ih =>
    intro c hc
    by_cases hx : p x
    · cases b with
      | true =>
        simp only [collapseRunsAux, hx, if_true] at hc
        rcases ih true c hc with h | ⟨h1, h2⟩
        · exact Or.inl h
        · exact Or.inr ⟨List.mem_cons.mpr (Or.inr h1), h2⟩
      | false =>
        simp only [collapseRunsAux, hx, if_true, Bool.false_eq_true, if_false,
          List.mem_cons] at hc
        rcases hc with h | hc
        · exact Or.inl h
        · rcases ih true c hc with h | ⟨h1, h2⟩
          · exact Or.inl h
          · exact Or.inr ⟨List.mem_cons.mpr (Or.inr h1), h2⟩
    · simp only [collapseRunsAux, hx, Bool.false_eq_true, if_false, List.mem_cons] at hc
      rcases hc with h | hc
      · subst h
        exact Or.inr ⟨List.mem_cons.mpr (Or.inl rfl), by simpa using hx⟩
      · rcases ih false c hc with h | ⟨h1, h2⟩
        · exact Or.inl h
        · exact Or.inr ⟨List.mem_cons.mpr (Or.inr h1), h2⟩

theorem mem_dropOneLeading (ch : Char) (l : List Char) (c : Char)
    (h : c ∈ dropOneLeading ch l) : c ∈ l := by
  cases l with
  | nil => simpa [dropOneLeading] using h
  | cons x rest =>
    by_cases hx : x = ch
    · simp only [dropOneLeading, hx, if_true] at h
      exact List.mem_cons.mpr (Or.inr h)
    · simpa [dropOneLeading, hx] using h

theorem mem_trimEdgeHyphens (l : List Char) (c : Char)
    (h : c ∈ trimEdgeHyphens l) : c ∈ l := by
  unfold trimEdgeHyphens at h
  have h1 := List.mem_reverse.mp h
  have h2 := mem_dropOneLeading _ _ _ h1
  have h3 := List.mem_reverse.mp h2
  exact mem_dropOneLeading _ _ _ h3

/-- C8, universal part: every character of every slug is in `[a-z0-9-]`. -/
theorem createSlug_chars (text : String) (c : Char) (hc : c ∈ (createSlug text).data) :
    slugOk c = true := by
  have h80 : c ∈ trimEdgeHyphens (collapseRuns (fun c => c = '-') ('-')
      (collapseRuns jsWs ('-') ((text.data.map Char.toLower).filter slugKeep))) := by
    exact List.take_subset _ _ hc
  have h5 := mem_trimEdgeHyphens _ _ h80
  rcases mem_collapseRunsAux _ _ _ _ _ h5 with h | ⟨h4, hnh⟩
  · subst h
    decide
  · rcases mem_collapseRunsAux _ _ _ _ _ h4 with h | ⟨h3, hnw⟩
    · subst h
      decide
    · have hkeep : slugKeep c = true := (List.mem_filter.mp h3).2
      unfold slugKeep at hkeep
      unfold slugOk
      simp only [Bool.or_eq_true] at hkeep ⊢
      rcases hkeep with ((h | h) | h) | h
      · exact Or.inl (Or.inl h)
      · exact Or.inl (Or.inr h)
      · exact absurd h (by simpa using hnw)
      · exact absurd h (by simpa using hnh)

/-! ## Identifier pattern lemmas -/

theorem matchHF_shape (s : String) (h : matchHF s = true) :
    ∃ rest, s.data = 'H' :: 'F' :: rest ∧ rest ≠ [] ∧ allDigits rest = true := by
  unfold matchHF at h
  split at h
  · next c1 c2 rest heq =>
    simp only [Bool.and_eq_true, decide_eq_true_eq, ne_eq] at h
    obtain ⟨⟨⟨h1, h2⟩, h3⟩, h4⟩ := h
    subst h1
    subst h2
    exact ⟨rest, heq, by simpa using h3, h4⟩
  · exact absurd h (by simp)

theorem matchSF_shape (s : String) (h : matchSF s = true) :
    ∃ rest, s.data = 'S' :: 'F' :: rest ∧ rest ≠ [] ∧ allDigits rest = true := by
  unfold matchSF at h
  split at h
  · next c1 c2 rest heq =>
    simp only [Bool.and_eq_true, decide_eq_true_eq, ne_eq] at h
    obtain ⟨⟨⟨h1, h2⟩, h3⟩, h4⟩ := h
    subst h1
    subst h2
    exact ⟨rest, heq, by simpa using h3, h4⟩
  · exact absurd h (by simp)

theorem matchHF_ne_empty (s : String) (h : matchHF s = true) : s ≠ "" := by
  obtain ⟨rest, hdata, -, -⟩ := matchHF_shape s h
  intro he
  rw [he] at hdata
  exact absurd hdata (by simp [String.data])

theorem matchSF_ne_empty (s : String) (h : matchSF s = true) : s ≠ "" := by
  obtain ⟨rest, hdata, -, -⟩ := matchSF_shape s h
  intro he
  rw [he] at hdata
  exact absurd hdata (by simp [String.data])

theorem matchSF_of_matchHF (s : String) (h : matchHF s = true) : matchSF s = false := by
  obtain ⟨rest, hdata, -, -⟩ := matchHF_shape s h
  unfold matchSF
  rw [hdata]
  simp

theorem matchHF_of_matchSF (s : String) (h : matchSF s = true) : matchHF s = false := by
  obtain ⟨rest, hdata, -, -⟩ := matchSF_shape s h
  unfold matchHF
  rw [hdata]
  simp

/-! ## Claim C8: Slug Builder -/

/-- C8: for every input string the Slug Builder returns a string of length at
most 80 whose characters are all in `[a-z0-9-]`; in particular
`"An Act Relating to Education!!"` slugs to `"an-act-relating-to-education"`. -/
theorem c8_slug_builder_total_bounded :
    (∀ text : String,
        (createSlug text).length ≤ 80 ∧ (createSlug text).data.all slugOk = true) ∧
      createSlug ("An Act Relating to Education!!") = "an-act-relating-to-education" := by
  constructor
  · intro text
    constructor
    · show (createSlug text).data.length ≤ 80
      unfold createSlug
      simpa using List.length_take_le 80 _
    · apply List.all_eq_true.mpr
      intro c hc
      exact createSlug_chars text c hc
  · decide

theorem normalizeNumbers_fire1 (rawHouse rawSenate : String)
    (hh : normIdent rawHouse = "") (hs : matchHF (normIdent rawSenate) = true) :
    normalizeNumbers rawHouse rawSenate =
      ⟨normIdent rawSenate, "", some (normIdent rawSenate), some ""⟩ := by
  unfold normalizeNumbers
  rw [hh]
  simp only [hs, decide_True, Bool.and_true, Bool.true_and, if_true]
  simp only [matchSF_of_matchHF _ hs, Bool.and_false, Bool.false_eq_true, if_false]

theorem normalizeNumbers_fire2 (rawHouse rawSenate : String)
    (hs : normIdent rawSenate = "") (hh : matchSF (normIdent rawHouse) = true) :
    normalizeNumbers rawHouse rawSenate =
      ⟨"", normIdent rawHouse, some "", some (normIdent rawHouse)⟩ := by
  unfold normalizeNumbers
  rw [hs]
  have hHF : matchHF ("") = false := by decide
  have hne : normIdent rawHouse ≠ "" := matchSF_ne_empty _ hh
  simp only [hne, hHF, decide_False, Bool.false_and, Bool.and_false,
    Bool.false_eq_true, if_false]
  simp only [hh, Bool.and_true, decide_True, Bool.true_and, if_true]

theorem normalizeNumbers_nofire (rawHouse rawSenate : String)
    (h1 : ¬(normIdent rawHouse = "" ∧ matchHF (normIdent rawSenate) = true))
    (h2 : ¬(normIdent rawSenate = "" ∧ matchSF (normIdent rawHouse) = true)) :
    normalizeNumbers rawHouse rawSenate =
      ⟨normIdent rawHouse, normIdent rawSenate, none, none⟩ := by
  unfold normalizeNumbers
  have hfire1 : (decide (normIdent rawHouse = "") && matchHF (normIdent rawSenate)) = false := by
    by_cases hh : normIdent rawHouse = ""
    · have hs : matchHF (normIdent rawSenate) = false := by
        by_cases hs' : matchHF (normIdent rawSenate) = true
        · exact absurd ⟨hh, hs'⟩ h1
        · simpa using hs'
      simp [hh, hs]
    · simp [hh]
  simp only [hfire1, Bool.false_eq_true, if_false]
  have hfire2 : (decide (normIdent rawSenate = "") && matchSF (normIdent rawHouse)) = false := by
    by_cases hs : normIdent rawSenate = ""
    · have hh : matchSF (normIdent rawHouse) = false := by
        by_cases hh' : matchSF (normIdent rawHouse) = true
        · exact absurd ⟨hs, hh'⟩ h2
        · simpa using hh'
      simp [hs, hh]
    · simp [hs]
  simp only [hfire2, Bool.false_eq_true, if_false]

theorem normalizeNumbers_cases (rawHouse rawSenate : String) :
    (normIdent rawHouse = "" ∧ matchHF (normIdent rawSenate) = true ∧
        normalizeNumbers rawHouse rawSenate =
          ⟨normIdent rawSenate, "", some (normIdent rawSenate), some ""⟩) ∨
      (normIdent rawSenate = "" ∧ matchSF (normIdent rawHouse) = true ∧
        normalizeNumbers rawHouse rawSenate =
          ⟨"", normIdent rawHouse, some "", some (normIdent rawHouse)⟩) ∨
      (¬(normIdent rawHouse = "" ∧ matchHF (normIdent rawSenate) = true) ∧
        ¬(normIdent rawSenate = "" ∧ matchSF (normIdent rawHouse) = true) ∧
        normalizeNumbers rawHouse rawSenate =
          ⟨normIdent rawHouse, normIdent rawSenate, none, none⟩) := by
  by_cases h1 : normIdent rawHouse = "" ∧ matchHF (normIdent rawSenate) = true
  · exact Or.inl ⟨h1.1, h1.2, normalizeNumbers_fire1 _ _ h1.1 h1.2⟩
  · by_cases h2 : normIdent rawSenate = "" ∧ matchSF (normIdent rawHouse) = true
    · exact Or.inr (Or.inl ⟨h2.1, h2.2, normalizeNumbers_fire2 _ _ h2.1 h2.2⟩)
    · exact Or.inr (Or.inr ⟨h1, h2, normalizeNumbers_nofire _ _ h1 h2⟩)

theorem normIdent_empty : normIdent ("") = "" := by
  decide

/-! ## Claim C3: Identifier Normalizer swaps -/

/-- C3: whenever exactly one normalized field holds the other chamber's code
(house empty with senate matching `^HF\d+$`, or senate empty with house
matching `^SF\d+$`), `normalizeNumbers` moves the value into the correct
field, clears the wrong one, and records corrections for both keys; in
particular `("", "HF1099")` yields house `"HF1099"`, senate `""`, with both
corrections recorded. -/
theorem c3_identifier_normalizer_swaps :
    (∀ rawHouse rawSenate : String,
        (normIdent rawHouse = "" → matchHF (normIdent rawSenate) = true →
          normalizeNumbers rawHouse rawSenate =
            ⟨normIdent rawSenate, "", some (normIdent rawSenate), some ""⟩) ∧
        (normIdent rawSenate = "" → matchSF (normIdent rawHouse) = true →
          normalizeNumbers rawHouse rawSenate =
            ⟨"", normIdent rawHouse, some "", some (normIdent rawHouse)⟩)) ∧
      normalizeNumbers ("") ("HF1099") = ⟨"HF1099", "", some "HF1099", some ""⟩ := by
  constructor
  · intro rawHouse rawSenate
    exact ⟨normalizeNumbers_fire1 rawHouse rawSenate,
           normalizeNumbers_fire2 rawHouse rawSenate⟩
  · decide

/-- Witness for C3 at the concrete input `("", "HF1099")`. -/
theorem c3_identifier_normalizer_swaps_witness :
    normalizeNumbers ("") ("HF1099") = ⟨"HF1099", "", some "HF1099", some ""⟩ := by
  have h := (c3_identifier_normalizer_swaps.1 ("") ("HF1099")).1 (by decide) (by decide)
  exact h.trans (by decide)

/-! ## Claim C10: the normalizer is idempotent and swaps at most once -/

/-- C10: for every raw pair, at most one swap rule fires — the corrections
map is either empty or carries exactly the two keys — and feeding the
normalized pair back in returns it unchanged with an empty corrections map. -/
theorem c10_normalizer_idempotent (rawHouse rawSenate : String) :
    (((normalizeNumbers rawHouse rawSenate).corrHouse = none ∧
        (normalizeNumbers rawHouse rawSenate).corrSenate = none) ∨
      ((normalizeNumbers rawHouse rawSenate).corrHouse.isSome = true ∧
        (normalizeNumbers rawHouse rawSenate).corrSenate.isSome = true)) ∧
      normalizeNumbers (normalizeNumbers rawHouse rawSenate).houseNumber
          (normalizeNumbers rawHouse rawSenate).senateNumber =
        ⟨(normalizeNumbers rawHouse rawSenate).houseNumber,
          (normalizeNumbers rawHouse rawSenate).senateNumber, none, none⟩ := by
  rcases normalizeNumbers_cases rawHouse rawSenate with
    ⟨hh, hs, heq⟩ | ⟨hs, hh, heq⟩ | ⟨h1, h2, heq⟩
  · rw [heq]
    constructor
    · exact Or.inr ⟨rfl, rfl⟩
    · have hfix : normIdent (normIdent rawSenate) = normIdent rawSenate :=
        normIdent_idem rawSenate
      have h := normalizeNumbers_nofire (normIdent rawSenate) ("")
        (by
          rintro ⟨he, -⟩
          exact matchHF_ne_empty _ hs (hfix.symm.trans he))
        (by
          rintro ⟨-, hm⟩
          rw [hfix] at hm
          exact absurd hm (by simp [matchSF_of_matchHF _ hs]))
      rw [h, hfix, normIdent_empty]
  · rw [heq]
    constructor
    · exact Or.inr ⟨rfl, rfl⟩
    · have hfix : normIdent (normIdent rawHouse) = normIdent rawHouse :=
        normIdent_idem rawHouse
      have h := normalizeNumbers_nofire ("") (normIdent rawHouse)
        (by
          rintro ⟨-, hm⟩
          rw [hfix] at hm
          exact absurd hm (by simp [matchHF_of_matchSF _ hh]))
        (by
          rintro ⟨he, -⟩
          exact matchSF_ne_empty _ hh (hfix.symm.trans he))
      rw [h, hfix, normIdent_empty]
  · rw [heq]
    constructor
    · exact Or.inl ⟨rfl, rfl⟩
    · have h := normalizeNumbers_nofire (normIdent rawHouse) (normIdent rawSenate)
        (by
          rw [normIdent_idem rawHouse, normIdent_idem rawSenate]
          exact h1)
        (by
          rw [normIdent_idem rawHouse, normIdent_idem rawSenate]
          exact h2)
      rw [h, normIdent_idem rawHouse, normIdent_idem rawSenate]

/-! ## Claim C1: Status Classifier priority order -/

/-- C1: the classifier follows the spec's priority order with first match
winning — code 4 ⇒ `Passed`; codes 5/6 ⇒ `Failed` regardless of last-action
text; codes 1–3 in jurisdiction `MN` with a (truthy) parsed legislative year
and today on/after June 1 of that year ⇒ `Tabled`; otherwise `Active`; and a
missing/unparseable year disables the June-1 rule, so the result falls
through to `Active` unless the last-action rule matched. -/
theorem c1_status_classifier_priority (b : BillInfo) (state : String)
    (ly : Option String) (today : YMD) :
    (b.status = 4 → computeStatusKey b state ly today = "Passed") ∧
      (b.status = 5 ∨ b.status = 6 → computeStatusKey b state ly today = "Failed") ∧
      (∀ y : Int, jsNumberOpt ly = some y → y ≠ 0 → state = "MN" →
        YMD.leB ⟨y, 6, 1⟩ today = true →
        b.status = 1 ∨ b.status = 2 ∨ b.status = 3 →
        computeStatusKey b state ly today = "Tabled") ∧
      (b.status ≠ 4 → b.status ≠ 5 → b.status ≠ 6 →
        looksDead (jsLower (jsOrStr b.last_action "")) = false →
        ¬(state = "MN" ∧ ∃ y : Int, jsNumberOpt ly = some y ∧ y ≠ 0 ∧
            YMD.leB ⟨y, 6, 1⟩ today = true ∧
            (b.status = 1 ∨ b.status = 2 ∨ b.status = 3)) →
        computeStatusKey b state ly today = "Active") ∧
      (jsNumberOpt ly = none → b.status ≠ 4 → b.status ≠ 5 → b.status ≠ 6 →
        looksDead (jsLower (jsOrStr b.last_action "")) = false →
        computeStatusKey b state ly today = "Active") := by
  refine ⟨?_, ?_, ?_, ?_, ?_⟩
  · intro h4
    unfold computeStatusKey
    rw [if_pos h4]
  · intro h56
    unfold computeStatusKey
    rw [if_neg (by rcases h56 with h | h <;> omega), if_pos h56]
  · intro y hy hy0 hmn hle hcode
    unfold computeStatusKey
    rw [if_neg (by rcases hcode with h | h | h <;> omega),
      if_neg (by rcases hcode with h | h | h <;> omega)]
    by_cases hld : looksDead (jsLower (jsOrStr b.last_action "")) = true
    · simp only [hy, hmn, hy0, hld, if_true]
    · simp only [hy, hld, Bool.false_eq_true, if_false]
      simp only [if_pos (⟨hmn, hy0⟩ : state = "MN" ∧ y ≠ 0)]
      exact if_pos ⟨hle, hcode⟩
  · intro h4 h5 h6 hld hnot
    unfold computeStatusKey
    rw [if_neg h4, if_neg (by tauto)]
    simp only [hld, Bool.false_eq_true, if_false]
    cases hy : jsNumberOpt ly with
    | none => rfl
    | some y =>
      by_cases hmn : state = "MN" ∧ y ≠ 0
      · simp only [if_pos hmn]
        exact if_neg (by
          rintro ⟨hle, hcode⟩
          exact hnot ⟨hmn.1, y, hy, hmn.2, hle, hcode⟩)
      · simp only [if_neg hmn]
  · intro hy h4 h5 h6 hld
    unfold computeStatusKey
    rw [if_neg h4, if_neg (by tauto)]
    simp only [hld, Bool.false_eq_true, if_false, hy]

/-- Witness for C1 at concrete inputs: status 4 ⇒ Passed; status 5 ⇒ Failed;
status 1 in MN, year 2024, on 2024-06-15 ⇒ Tabled; status 1 with unmatched
action and no cutoff ⇒ Active; status 2 with unparseable year ⇒ Active. -/
theorem c1_status_classifier_priority_witness :
    computeStatusKey ⟨4, some "x", none, none, none, none, none, none, none, none⟩
        ("MN") (some "2024") ⟨2024, 6, 15⟩ = "Passed" ∧
      computeStatusKey ⟨5, some "x", none, none, none, none, none, none, none, none⟩
        ("MN") (some "2024") ⟨2024, 6, 15⟩ = "Failed" ∧
      computeStatusKey ⟨1, some "Referred to committee", none, none, none, none, none,
          none, none, none⟩ ("MN") (some "2024") ⟨2024, 6, 15⟩ = "Tabled" ∧
      computeStatusKey ⟨1, some "Referred to committee", none, none, none, none, none,
          none, none, none⟩ ("US") (some "2024") ⟨2024, 6, 15⟩ = "Active" ∧
      computeStatusKey ⟨2, some "Referred to committee", none, none, none, none, none,
          none, none, none⟩ ("MN") (some "20x4") ⟨2024, 6, 15⟩ = "Active" := by
  refine ⟨?_, ?_, ?_, ?_, ?_⟩
  · exact (c1_status_classifier_priority _ ("MN") (some "2024") ⟨2024, 6, 15⟩).1 rfl
  · exact (c1_status_classifier_priority _ ("MN") (some "2024") ⟨2024, 6, 15⟩).2.1 (Or.inl rfl)
  · exact (c1_status_classifier_priority _ ("MN") (some "2024") ⟨2024, 6, 15⟩).2.2.1 2024
      (by decide) (by decide) rfl (by decide) (Or.inl rfl)
  · exact (c1_status_classifier_priority _ ("US") (some "2024") ⟨2024, 6, 15⟩).2.2.2.1
      (by decide) (by decide) (by decide) (by decide)
      (by rintro ⟨h, -⟩; exact absurd h (by decide))
  · exact (c1_status_classifier_priority _ ("MN") (some "20x4") ⟨2024, 6, 15⟩).2.2.2.2
      (by decide) (by decide) (by decide) (by decide) (by decide)

/-! ## Claim C2: last-action phrase rule (code bug) -/

/-- C2 (code bug evidence): the source regex `laid on the? table` makes only
the letter `e` optional, so the phrase `laid on table` is NOT matched and a
status-1 bill whose last action is `"Laid on table"` classifies as `Active`,
where the specification's phrase list (`laid on [the] table` with the word
`the` optional) expects `Tabled`.  The neighbouring phrasings the regex does
match are also evaluated. -/
theorem c2_laid_on_table_divergence :
    computeStatusKey ⟨1, some "Laid on table", none, none, none, none, none, none,
        none, none⟩ ("MN") none ⟨2025, 10, 11⟩ = "Active" ∧
      looksDead (jsLower ("Laid on table")) = false ∧
      computeStatusKey ⟨1, some "Laid on the table", none, none, none, none, none,
        none, none, none⟩ ("MN") none ⟨2025, 10, 11⟩ = "Tabled" ∧
      computeStatusKey ⟨1, some "Laid on th table", none, none, none, none, none,
        none, none, none⟩ ("MN") none ⟨2025, 10, 11⟩ = "Tabled" ∧
      computeStatusKey ⟨1, some "Bill was tabled in committee", none, none, none,
        none, none, none, none, none⟩ ("MN") none ⟨2025, 10, 11⟩ = "Tabled" := by
  refine ⟨by decide, by decide, by decide, by decide, by decide⟩

/-! ## Claim C4: empty-history timeline (code bug) -/

/-- C4 (code bug evidence): with no history and every action field empty the
renderer returns `"<p>No recent actions recorded</p>"`, not the empty string
the specification promises — the source's `if (!d && !a) return ''` guard is
unreachable because `a` has already been defaulted to the non-empty
`'No recent actions recorded'`. -/
theorem c4_empty_timeline_divergence :
    buildTimelineHtml (some emptyBill) = "<p>No recent actions recorded</p>" ∧
      buildTimelineHtml none = "<p>No recent actions recorded</p>" ∧
      buildTimelineHtml (some emptyBill) ≠ "" := by
  refine ⟨by decide, by decide, by decide⟩

/-! ## Claim C9: display-name placeholder gate -/

theorem jsUpper_eq_iff (a b : String) : jsUpper a = jsUpper b ↔ jsLower a = jsLower b := by
  unfold jsUpper jsLower
  constructor
  · intro h
    apply String.ext
    have hd : a.data.map Char.toUpper = b.data.map Char.toUpper := congrArg String.data h
    exact (mapUpper_eq_iff_mapLower _ _).mp hd
  · intro h
    apply String.ext
    have hd : a.data.map Char.toLower = b.data.map Char.toLower := congrArg String.data h
    exact (mapUpper_eq_iff_mapLower _ _).mpr hd

theorem isPlaceholderName_eq_spec (name billNum : String) :
    isPlaceholderName name billNum = placeholderSpecClaim name billNum := by
  rw [Bool.eq_iff_iff]
  unfold isPlaceholderName placeholderSpecClaim
  simp only [Bool.or_eq_true, Bool.and_eq_true, decide_eq_true_eq, ne_eq,
    List.contains_cons, List.contains_nil, beq_iff_eq, Bool.or_false]
  rw [jsUpper_eq_iff]

/-- C9: the update payload carries the display-name field exactly when the
existing name is a placeholder in the specification's sense (empty, the bill
number up to case, the bare-code pattern `^[HS]F[-\s]?\d+$`, or a literal
placeholder word); a non-placeholder name is never overwritten. -/
theorem c9_placeholder_name_gate (currentName primaryNumber : String) (title : Option String) :
    (nameFieldUpdate currentName primaryNumber title).isSome =
        placeholderSpecClaim currentName primaryNumber ∧
      (placeholderSpecClaim currentName primaryNumber = false →
        nameFieldUpdate currentName primaryNumber title = none) := by
  constructor
  · unfold nameFieldUpdate
    by_cases h : isPlaceholderName currentName primaryNumber = true
    · rw [if_pos h]
      rw [← isPlaceholderName_eq_spec, h]
      rfl
    · rw [if_neg h]
      rw [← isPlaceholderName_eq_spec]
      simp only [Option.isSome_none]
      exact (Bool.not_eq_true _ ▸ (by simpa using h) : isPlaceholderName currentName primaryNumber = false).symm
  · intro hfalse
    unfold nameFieldUpdate
    rw [if_neg]
    rw [← isPlaceholderName_eq_spec] at hfalse
    simp [hfalse]

/-- Witness for C9: a human-entered name is not overwritten, a placeholder
name is. -/
theorem c9_placeholder_name_gate_witness :
    nameFieldUpdate ("Education omnibus act") ("HF1099") (some "Title") = none ∧
      (nameFieldUpdate ("hf 1099") ("HF1099") (some "Title")).isSome = true := by
  constructor
  · exact (c9_placeholder_name_gate ("Education omnibus act") ("HF1099") (some "Title")).2
      (by decide)
  · exact ((c9_placeholder_name_gate ("hf 1099") ("HF1099") (some "Title")).1).trans (by decide)

/-! ## Date-key lemmas shared by the timeline and link selectors -/

theorem descKeyLe_refl (k : Option Int) : descKeyLe k k = true := by
  cases k <;> simp [descKeyLe]

theorem descKeyLe_total (a b : Option Int) :
    descKeyLe a b = true ∨ descKeyLe b a = true := by
  cases a with
  | none => left; simp [descKeyLe]
  | some x =>
    cases b with
    | none => left; simp [descKeyLe]
    | some y =>
      simp only [descKeyLe, decide_eq_true_eq]
      omega

theorem descKeyLe_trans_some {a b c : Option Int}
    (ha : a.isSome = true) (hb : b.isSome = true) (hc : c.isSome = true)
    (h1 : descKeyLe a b = true) (h2 : descKeyLe b c = true) : descKeyLe a c = true := by
  obtain ⟨x, rfl⟩ := Option.isSome_iff_exists.mp ha
  obtain ⟨y, rfl⟩ := Option.isSome_iff_exists.mp hb
  obtain ⟨z, rfl⟩ := Option.isSome_iff_exists.mp hc
  simp only [descKeyLe, decide_eq_true_eq] at h1 h2 ⊢
  omega

/-- The sort key is a function of the grouping key: selecting
`d || a || 0` for `Date` and `d || a || ''` for the `Map` key pick the same
field. -/
theorem sortKey_rep (d a : Option String) :
    (match jsOrOpt d a with
      | some s => jsDateNum s
      | none => some 0) =
      (if jsOrStr3 d a "" = "" then some 0 else jsDateNum (jsOrStr3 d a "")) := by
  rcases d with _ | s
  · rcases a with _ | t
    · simp [jsOrOpt, jsOrStr3, jsOrStr, jsTruthy]
    · by_cases ht : t = ""
      · simp [jsOrOpt, jsOrStr3, jsOrStr, jsTruthy, ht]
      · simp [jsOrOpt, jsOrStr3, jsOrStr, jsTruthy, ht]
  · by_cases hs : s = ""
    · rcases a with _ | t
      · simp [jsOrOpt, jsOrStr3, jsOrStr, jsTruthy, hs]
      · by_cases ht : t = ""
        · simp [jsOrOpt, jsOrStr3, jsOrStr, jsTruthy, hs, ht]
        · simp [jsOrOpt, jsOrStr3, jsOrStr, jsTruthy, hs, ht]
    · simp [jsOrOpt, jsOrStr3, jsOrStr, jsTruthy, hs]

theorem histSortKey_rep (e : HistoryEvent) :
    histSortKey e = if dateKeyOf e = "" then some 0 else jsDateNum (dateKeyOf e) := by
  have h := sortKey_rep e.date e.action_date
  exact h

theorem histSortKey_congr {a b : HistoryEvent} (h : dateKeyOf a = dateKeyOf b) :
    histSortKey a = histSortKey b := by
  rw [histSortKey_rep, histSortKey_rep, h]

theorem histLe_of_dateKey_eq {a b : HistoryEvent} (h : dateKeyOf a = dateKeyOf b) :
    histLe a b = true := by
  unfold histLe
  rw [histSortKey_congr h]
  exact descKeyLe_refl _

theorem any_jsSort (le : α → α → Bool) (q : α → Bool) (l : List α) :
    (jsSort le l).any q = l.any q := by
  rw [Bool.eq_iff_iff]
  simp only [List.any_eq_true]
  constructor
  · rintro ⟨x, hx, hq⟩
    exact ⟨x, (mem_jsSort le l x).mp hx, hq⟩
  · rintro ⟨x, hx, hq⟩
    exact ⟨x, (mem_jsSort le l x).mpr hx, hq⟩

/-! ## Claim C5: Timeline Renderer grouping -/

/-- C5: for a non-empty history the renderer emits exactly one block per
distinct date key of the (descending-sorted) events: the rendered output is
the join of one rendered row per grouped entry; the group keys are exactly
the distinct date keys of the input, without duplicates; the group of key `k`
holds precisely the actions of the events with key `k`, in received order
(stability); the sort is descending by parsed date whenever every key
parses; a two-action group renders as one block with two bullet lines and a
one-action group as one unbulleted block. -/
theorem c5_timeline_one_block_per_date (i : BillInfo) (l : List HistoryEvent)
    (hl : i.history = some l) (hne : l ≠ []) :
    buildTimelineHtml (some i) =
        String.join (((groupByDate (jsSort histLe l)).enum).map
          (fun p => renderGroup (groupByDate (jsSort histLe l)).length p.fst p.snd)) ∧
      ((groupByDate (jsSort histLe l)).map Prod.fst).Nodup ∧
      (∀ k : String,
        k ∈ (groupByDate (jsSort histLe l)).map Prod.fst ↔ k ∈ l.map dateKeyOf) ∧
      (∀ k : String,
        groupLookup k (groupByDate (jsSort histLe l)) =
          if l.any (fun e => decide (dateKeyOf e = k)) = true then
            some ((l.filter (fun e => decide (dateKeyOf e = k))).map actionOf)
          else none) ∧
      ((∀ e ∈ l, (histSortKey e).isSome = true) →
        (jsSort histLe l).Pairwise (fun a b => histLe a b = true)) ∧
      (∀ (n idx : Nat) (k a₁ a₂ : String),
        renderGroup n idx (k, [a₁, a₂]) =
          (let dateText := fmt k
           let html :=
             if dateText ≠ "" then
               "<p><strong>" ++ esc dateText ++ "</strong><br>" ++
                 ("• " ++ esc a₁ ++ "<br>" ++ ("• " ++ esc a₂)) ++ "</p>"
             else "<p>" ++ ("• " ++ esc a₁ ++ "<br>" ++ ("• " ++ esc a₂)) ++ "</p>"
           if idx < n - 1 then html ++ "<br>" else html)) ∧
      (∀ (n idx : Nat) (k a : String),
        renderGroup n idx (k, [a]) =
          (let dateText := fmt k
           let html :=
             if dateText ≠ "" then
               "<p><strong>" ++ esc dateText ++ "</strong><br>" ++ esc a ++ "</p>"
             else "<p>" ++ esc a ++ "</p>"
           if idx < n - 1 then html ++ "<br>" else html)) := by
  refine ⟨?_, ?_, ?_, ?_, ?_, ?_, ?_⟩
  · unfold buildTimelineHtml
    simp only [hl, Option.getD_some]
    rw [if_neg hne]
  · exact nodup_keys_groupByDate _
  · intro k
    rw [mem_keys_groupByDate]
    constructor
    · intro h
      rcases List.mem_map.mp h with ⟨e, he, rfl⟩
      exact List.mem_map.mpr ⟨e, (mem_jsSort histLe l e).mp he, rfl⟩
    · intro h
      rcases List.mem_map.mp h with ⟨e, he, rfl⟩
      exact List.mem_map.mpr ⟨e, (mem_jsSort histLe l e).mpr he, rfl⟩
  · intro k
    rw [groupLookup_groupByDate]
    rw [any_jsSort]
    rw [filter_jsSort]
    intro a ha b hb hqa hqb
    simp only [decide_eq_true_eq] at hqa hqb
    exact histLe_of_dateKey_eq (hqa.trans hqb.symm)
  · intro hsome
    apply pairwise_jsSort
    · intro a ha b hb
      exact descKeyLe_total _ _
    · intro a ha b hb c hc h1 h2
      exact descKeyLe_trans_some (hsome a ha) (hsome b hb) (hsome c hc) h1 h2
  · intro n idx k a₁ a₂
    rfl
  · intro n idx k a
    rfl

/-- Witness for C5: three events, two sharing date 2024-03-01 — one group
per distinct date, the shared-date group holding both actions in received
order, and the sort descending. -/
theorem c5_timeline_one_block_per_date_witness :
    groupLookup ("2024-03-01")
        (groupByDate (jsSort histLe
          [⟨some "2024-05-02", none, some "Second reading"⟩,
           ⟨some "2024-03-01", none, some "First reading"⟩,
           ⟨some "2024-03-01", none, some "Referred to committee"⟩])) =
      some ["First reading", "Referred to committee"] ∧
      (jsSort histLe
          [⟨some "2024-05-02", none, some "Second reading"⟩,
           ⟨some "2024-03-01", none, some "First reading"⟩,
           ⟨some "2024-03-01", none, some "Referred to committee"⟩]).Pairwise
        (fun a b => histLe a b = true) := by
  have h := c5_timeline_one_block_per_date
    ⟨0, none, none, none,
      some [⟨some "2024-05-02", none, some "Second reading"⟩,
            ⟨some "2024-03-01", none, some "First reading"⟩,
            ⟨some "2024-03-01", none, some "Referred to committee"⟩],
      none, none, none, none, none⟩
    [⟨some "2024-05-02", none, some "Second reading"⟩,
     ⟨some "2024-03-01", none, some "First reading"⟩,
     ⟨some "2024-03-01", none, some "Referred to committee"⟩]
    rfl (by decide)
  constructor
  · exact (h.2.2.2.1 ("2024-03-01")).trans (by decide)
  · exact h.2.2.2.2.1 (by decide)

/-! ## Claim C6: Document Link Selector -/

theorem textSortKey_rep (t : TextVersion) :
    textSortKey t = if jsOrStr3 t.date t.action_date "" = "" then some 0
      else jsDateNum (jsOrStr3 t.date t.action_date "") := by
  have h := sortKey_rep t.date t.action_date
  exact h

theorem textLe_of_key_eq {a b : TextVersion} (h : textSortKey a = textSortKey b) :
    textLe a b = true := by
  unfold textLe
  rw [h]
  exact descKeyLe_refl _

/-- C6: the selector returns no link for an absent payload; with no document
versions it falls back to the bill's own links (and to no link when both are
falsy); with versions present it sorts them descending by date (a missing
date sorting as the epoch), returns the link of the first PDF-looking
version in sorted order when one exists, and the link of the most recent
version otherwise; versions with equal date keys keep their received order. -/
theorem c6_document_link_selector :
    pickBestTextUrl none = none ∧
      (∀ i : BillInfo, i.texts = none ∨ i.texts = some [] →
        pickBestTextUrl (some i) = infoLinkOf i) ∧
      (∀ i : BillInfo, jsTruthy i.state_link = false → jsTruthy i.url = false →
        infoLinkOf i = none) ∧
      (∀ (i : BillInfo) (ts : List TextVersion), i.texts = some ts → ts ≠ [] →
        (∀ p : TextVersion, (jsSort textLe ts).find? isPdfText = some p →
          pickBestTextUrl (some i) = textLinkOf p ∧ isPdfText p = true ∧ p ∈ ts) ∧
          ((∀ t ∈ ts, isPdfText t = false) →
            ∀ f rest, jsSort textLe ts = f :: rest →
              pickBestTextUrl (some i) = textLinkOf f) ∧
          ((∀ t ∈ ts, (textSortKey t).isSome = true) →
            (jsSort textLe ts).Pairwise (fun a b => textLe a b = true)) ∧
          (∀ k : Option Int,
            (jsSort textLe ts).filter (fun t => decide (textSortKey t = k)) =
              ts.filter (fun t => decide (textSortKey t = k)))) ∧
      (∀ t : TextVersion, jsTruthy t.date = false → jsTruthy t.action_date = false →
        textSortKey t = some 0) := by
  refine ⟨rfl, ?_, ?_, ?_, ?_⟩
  · intro i hi
    unfold pickBestTextUrl
    rcases hi with hi | hi <;> simp [hi]
  · intro i h1 h2
    unfold infoLinkOf
    rw [h1, h2]
    simp
  · intro i ts hts hne
    refine ⟨?_, ?_, ?_, ?_⟩
    · intro p hp
      refine ⟨?_, List.find?_some hp, (mem_jsSort textLe ts p).mp (List.mem_of_find?_eq_some hp)⟩
      unfold pickBestTextUrl
      simp only [hts, Option.getD_some]
      rw [if_pos hne, hp]
    · intro hnopdf f rest hsorted
      have hfind : (jsSort textLe ts).find? isPdfText = none := by
        apply List.find?_eq_none.mpr
        intro x hx
        simp [hnopdf x ((mem_jsSort textLe ts x).mp hx)]
      unfold pickBestTextUrl
      simp only [hts, Option.getD_some]
      rw [if_pos hne, hfind, hsorted]
      rfl
    · intro hsome
      apply pairwise_jsSort
      · intro a ha b hb
        exact descKeyLe_total _ _
      · intro a ha b hb c hc h1 h2
        exact descKeyLe_trans_some (hsome a ha) (hsome b hb) (hsome c hc) h1 h2
    · intro k
      apply filter_jsSort
      intro a ha b hb hqa hqb
      simp only [decide_eq_true_eq] at hqa hqb
      exact textLe_of_key_eq (hqa.trans hqb.symm)
  · intro t h1 h2
    unfold textSortKey
    unfold jsOrOpt
    rw [h1, h2]
    simp

/-- Witness for C6: a two-version list where the older version is the PDF
one — the selector still prefers the newer-sorted list's first PDF — plus the
no-version and no-link fallbacks at concrete inputs. -/
theorem c6_document_link_selector_witness :
    pickBestTextUrl (some ⟨0, none, none, none, none,
        some [⟨some "2024-01-01", none, some "text/html", some "http://x.example/a.htm", none⟩,
              ⟨some "2024-02-01", none, some "application/pdf", some "http://x.example/b.pdf", none⟩],
        none, some "http://legiscan.example/bill", none, none⟩) =
      some "http://x.example/b.pdf" ∧
      pickBestTextUrl (some ⟨0, none, none, none, none, none, none, none,
        some "http://legiscan.example/bill", none⟩) = some "http://legiscan.example/bill" ∧
      infoLinkOf emptyBill = none := by
  refine ⟨?_, ?_, ?_⟩
  · have h := (c6_document_link_selector.2.2.2.1
      ⟨0, none, none, none, none,
        some [⟨some "2024-01-01", none, some "text/html", some "http://x.example/a.htm", none⟩,
              ⟨some "2024-02-01", none, some "application/pdf", some "http://x.example/b.pdf", none⟩],
        none, some "http://legiscan.example/bill", none, none⟩
      [⟨some "2024-01-01", none, some "text/html", some "http://x.example/a.htm", none⟩,
       ⟨some "2024-02-01", none, some "application/pdf", some "http://x.example/b.pdf", none⟩]
      rfl (by decide)).1
      ⟨some "2024-02-01", none, some "application/pdf", some "http://x.example/b.pdf", none⟩
      (by decide)
    exact h.1.trans (by decide)
  · have h := c6_document_link_selector.2.1
      ⟨0, none, none, none, none, none, none, none, some "http://legiscan.example/bill", none⟩
      (Or.inl rfl)
    exact h.trans (by decide)
  · exact c6_document_link_selector.2.2.1 emptyBill (by decide) (by decide)

/-! ## Claim C7: Sponsor Renderer -/

theorem lexLe_refl (l : List Char) : lexLe l l = true := by
  induction l with
  | nil => rfl
  | cons c rest ih => simp [lexLe, ih]

theorem sponsorLe_of_tupleKey_eq {a b : Sponsor}
    (h : sponsorTupleKey a = sponsorTupleKey b) : sponsorLe a b = true := by
  unfold sponsorTupleKey at h
  rw [Prod.ext_iff, Prod.ext_iff, Prod.ext_iff] at h
  obtain ⟨hname, htype, -, -⟩ := h
  simp only at hname htype
  unfold sponsorLe
  rw [hname, htype]
  simp [lexLe_refl]

theorem sponsorTypeRank_eq_999 {s : Sponsor}
    (h1 : s.sponsor_type_id ≠ some 1) (h3 : s.sponsor_type_id ≠ some 3) :
    sponsorTypeRank s.sponsor_type_id = 999 := by
  unfold sponsorTypeRank
  rw [if_neg h1, if_neg h3]

theorem sponsorType_of_rank_lt {s : Sponsor}
    (h : sponsorTypeRank s.sponsor_type_id < 999) :
    s.sponsor_type_id = some 1 ∨ s.sponsor_type_id = some 3 := by
  by_cases h1 : s.sponsor_type_id = some 1
  · exact Or.inl h1
  · by_cases h3 : s.sponsor_type_id = some 3
    · exact Or.inr h3
    · rw [sponsorTypeRank_eq_999 h1 h3] at h
      omega

/-- C7 counterexample: dedup uses the pipe-joined string of the four fields,
not the tuple — a name containing `|` collides with a differently-typed
sponsor, so the rendered item list differs from tuple-key dedup. -/
theorem c7_sponsor_dedup_tuple_counterexample :
    sponsorItems
        [⟨some "A|1", none, none, none, none, none, none, none, some 3⟩,
         ⟨some "A", some "3|", none, none, none, none, none, none, some 1⟩] ≠
      dedupByTupleKey
        (jsSort sponsorLe
          ([⟨some "A|1", none, none, none, none, none, none, none, some 3⟩,
            ⟨some "A", some "3|", none, none, none, none, none, none, some 1⟩].filter
            (fun s => sponsorTypeRank s.sponsor_type_id < 999))) [] := by
  decide

/-- C7 (amended): the renderer drops every sponsor whose type classifier is
neither 1 nor 3 (excluded-type-only and empty lists render `""`), and
deduplicates the remaining sponsors by the **pipe-joined string** of
(name, type, party, district), keeping the first occurrence in sorted order;
the sort leaves entries with equal (name, type, party, district) tuples —
in particular genuine duplicates — in their received relative order. -/
theorem c7_sponsor_renderer_amended :
    (∀ st : String, buildSponsorsHtml none st = "") ∧
      (∀ (i : BillInfo) (st : String), i.sponsors = none ∨ i.sponsors = some [] →
        buildSponsorsHtml (some i) st = "") ∧
      (∀ (i : BillInfo) (st : String) (l : List Sponsor), i.sponsors = some l →
        (∀ s ∈ l, s.sponsor_type_id ≠ some 1 ∧ s.sponsor_type_id ≠ some 3) →
        buildSponsorsHtml (some i) st = "") ∧
      (∀ (l : List Sponsor), ∀ s ∈ sponsorItems l,
        s.sponsor_type_id = some 1 ∨ s.sponsor_type_id = some 3) ∧
      (∀ (i : BillInfo) (st : String) (l : List Sponsor), i.sponsors = some l → l ≠ [] →
        buildSponsorsHtml (some i) st =
          String.join (((sponsorItems l).enum).map (fun p =>
            if p.fst < (sponsorItems l).length - 1 then
              "<p>" ++ sponsorLine st p.snd ++ "</p><br>"
            else "<p>" ++ sponsorLine st p.snd ++ "</p>"))) ∧
      (∀ (l : List Sponsor) (k : String),
        (sponsorItems l).filter (fun s => decide (sponsorKey s = k)) =
          ((jsSort sponsorLe
            (l.filter (fun s => sponsorTypeRank s.sponsor_type_id < 999))).filter
              (fun s => decide (sponsorKey s = k))).take 1) ∧
      (∀ l : List Sponsor, ((sponsorItems l).map sponsorKey).Nodup) ∧
      (∀ (l : List Sponsor) (k : Option String × Option Int × Option String × Option String),
        (jsSort sponsorLe
            (l.filter (fun s => sponsorTypeRank s.sponsor_type_id < 999))).filter
          (fun s => decide (sponsorTupleKey s = k)) =
          (l.filter (fun s => sponsorTypeRank s.sponsor_type_id < 999)).filter
            (fun s => decide (sponsorTupleKey s = k))) := by
  refine ⟨?_, ?_, ?_, ?_, ?_, ?_, ?_, ?_⟩
  · intro st
    rfl
  · intro i st hi
    unfold buildSponsorsHtml
    rcases hi with hi | hi <;> simp [hi]
  · intro i st l hl hexc
    unfold buildSponsorsHtml
    simp only [hl, Option.getD_some]
    by_cases hnil : l = []
    · simp [hnil]
    · rw [if_neg hnil]
      have hfilter : l.filter (fun s => sponsorTypeRank s.sponsor_type_id < 999) = [] := by
        apply List.filter_eq_nil_iff.mpr
        intro s hs
        have := hexc s hs
        rw [sponsorTypeRank_eq_999 this.1 this.2]
        simp
      unfold sponsorItems
      rw [hfilter]
      rfl
  · intro l s hs
    have h1 := (dedupByKey_sublist _ []).subset hs
    have h2 := (mem_jsSort sponsorLe _ s).mp h1
    have h3 := (List.mem_filter.mp h2).2
    exact sponsorType_of_rank_lt (by simpa using h3)
  · intro i st l hl hnil
    unfold buildSponsorsHtml
    simp only [hl, Option.getD_some]
    rw [if_neg hnil]
  · intro l k
    have h := filter_dedupByKey
      (jsSort sponsorLe (l.filter (fun s => sponsorTypeRank s.sponsor_type_id < 999))) [] k
    simpa using h
  · intro l
    exact nodup_keys_dedupByKey _ []
  · intro l k
    apply filter_jsSort
    intro a ha b hb hqa hqb
    simp only [decide_eq_true_eq] at hqa hqb
    exact sponsorLe_of_tupleKey_eq (hqa.trans hqb.symm)

/-- Witness for C7 at concrete inputs: two identical excluded-type
co-sponsors render the empty string, and a duplicated primary sponsor is
rendered once. -/
theorem c7_sponsor_renderer_amended_witness :
    buildSponsorsHtml (some ⟨0, none, none, none, none, none,
        some [⟨some "Coe, Carl", some "R", some "3", none, none, none, none, some 2, some 2⟩,
              ⟨some "Coe, Carl", some "R", some "3", none, none, none, none, some 2, some 2⟩],
        none, none, none⟩) ("MN") = "" ∧
      (sponsorItems
        [⟨some "Smith, Jo", some "R", some "12A", none, none, none, none, some 1, some 1⟩,
         ⟨some "Smith, Jo", some "R", some "12A", none, none, none, none, some 1, some 1⟩]).filter
          (fun s => decide (sponsorKey s = "Smith, Jo|1|R|12A")) =
        [⟨some "Smith, Jo", some "R", some "12A", none, none, none, none, some 1, some 1⟩] := by
  constructor
  · exact c7_sponsor_renderer_amended.2.2.1
      ⟨0, none, none, none, none, none,
        some [⟨some "Coe, Carl", some "R", some "3", none, none, none, none, some 2, some 2⟩,
              ⟨some "Coe, Carl", some "R", some "3", none, none, none, none, some 2, some 2⟩],
        none, none, none⟩ ("MN")
      [⟨some "Coe, Carl", some "R", some "3", none, none, none, none, some 2, some 2⟩,
       ⟨some "Coe, Carl", some "R", some "3", none, none, none, none, some 2, some 2⟩]
      rfl (by decide)
  · exact (c7_sponsor_renderer_amended.2.2.2.2.2.1
      [⟨some "Smith, Jo", some "R", some "12A", none, none, none, none, some 1, some 1⟩,
       ⟨some "Smith, Jo", some "R", some "12A", none, none, none, none, some 1, some 1⟩]
      ("Smith, Jo|1|R|12A")).trans (by decide)

end BillSync
